import Mathlib

/-!
Verification of the typed SSL object cache in
`src/event/ngx_event_openssl_cache.c`.

The development shallowly embeds the cache data model and the two fetch
protocols.  External collaborators (the PEM parsers, `stat()`, the memory
allocator, the hash function) are treated as oracles: every call that the C
code makes into them is an explicit input of the embedded function, so each
embedded fetch is a pure function of the cache state and of the oracle
answers.  Values handed out by the kind adapters are opaque (`Nat`); the
`ref` operation of a kind adapter returns a handle to the same value, so it
is modelled as the identity on values, with an invocation counter.

The recency queue and the rbtree index always hold the same set of nodes in
a connection cache (the code unlinks a node from the queue only while it is
being refreshed inside a single fetch, spec section 4.7, P3), so the state
carries one list of nodes: list membership is index membership and list
order is recency order, head most recent.  Configuration caches never touch
the queue and have `max = 0`.
-/

namespace NgxSslCache

/-- Modelled from the spec: `ngx_memn2cmp` (length-aware lexicographic
comparison of the identity bytes, from `ngx_string.c`, outside `src/`):
compare the common prefix bytewise, then the shorter string is smaller. -/
def memn2cmp : List Nat → List Nat → Ordering
  | [], [] => .eq
  | [], _ :: _ => .lt
  | _ :: _, [] => .gt
  | a :: as, b :: bs =>
      if a < b then .lt else if b < a then .gt else memn2cmp as bs

/-- Composite index key: 32-bit murmur hash, kind-table position (the C code
compares kind-table element addresses, which are ordered by array index),
and the identity bytes. -/
structure NodeKey where
  hash : Nat
  kind : Nat
  bytes : List Nat
deriving DecidableEq, Repr

/-- Ternary comparator of the index: hash, then kind, then `memn2cmp` on the
identity bytes, as in `ngx_ssl_cache_lookup` (lines 433-461). -/
def keyCmp (a b : NodeKey) : Ordering :=
  if a.hash < b.hash then .lt
  else if b.hash < a.hash then .gt
  else if a.kind < b.kind then .lt
  else if b.kind < a.kind then .gt
  else memn2cmp a.bytes b.bytes

/-- Identity tag: NGX_SSL_CACHE_PATH / NGX_SSL_CACHE_DATA /
NGX_SSL_CACHE_ENGINE. -/
inductive KeyTag where
  | path : KeyTag
  | data : KeyTag
  | engine : KeyTag
deriving DecidableEq, Repr

/-- Cache key `ngx_ssl_cache_key_t`: tag plus identity bytes (`len` is
implicit in the list). -/
structure CacheKey where
  type : KeyTag
  bytes : List Nat
deriving DecidableEq, Repr

/-- Byte string "data:". -/
def dataPfx : List Nat := [100, 97, 116, 97, 58]

/-- Byte string "engine:". -/
def enginePfx : List Nat := [101, 110, 103, 105, 110, 101, 58]

/-- Modelled from the spec: `ngx_get_full_name` (outside `src/`) joins the
spec with the configuration prefix directory when it is not already an
absolute path (does not start with a slash, byte 47). -/
def fullName (cp spec : List Nat) : List Nat :=
  match spec with
  | c :: _ => if c = 47 then spec else cp ++ spec
  | [] => cp ++ spec

/-- Identity normalization `ngx_ssl_cache_init_key`: the "data:" form is
recognized for kind indexes CERT = 0 and PKEY = 1, the "engine:" form only
for PKEY, everything else resolves to an absolute path. -/
def initKey (index : Nat) (cp : List Nat) (path : List Nat) : CacheKey :=
  if index ≤ 1 ∧ dataPfx.isPrefixOf path then ⟨.data, path⟩
  else if index = 1 ∧ enginePfx.isPrefixOf path then ⟨.engine, path⟩
  else ⟨.path, fullName cp path⟩

/-- Captured file metadata `(ngx_file_mtime, ngx_file_uniq)` of one
successful `ngx_file_info` call. -/
structure FInfo where
  mtime : Int
  uniq : Nat
deriving DecidableEq, Repr

/-- Cache node `ngx_ssl_cache_node_t`: key material, kind index, opaque
stored value, timestamps and the captured file metadata. -/
structure CacheNode where
  hash : Nat
  id : CacheKey
  kind : Nat
  value : Nat
  created : Int
  accessed : Int
  mtime : Int
  uniq : Nat
deriving DecidableEq, Repr

/-- Index key of a node. -/
def nodeKey (cn : CacheNode) : NodeKey := ⟨cn.hash, cn.kind, cn.id.bytes⟩

/-- Key-equality test used to locate a node in the index. -/
def keyMatch (k : NodeKey) (cn : CacheNode) : Bool :=
  keyCmp k (nodeKey cn) == .eq

/-- Cache instance `ngx_ssl_cache_s`: the node list (index contents in
recency order, head most recent), the `current` counter and the policy
parameters. -/
structure CacheState where
  entries : List CacheNode
  current : Nat
  max : Nat
  valid : Int
  inactive : Int
  inherit : Bool
deriving DecidableEq, Repr

/-- Cache construction `ngx_ssl_cache_init`: empty index and queue, zeroed
counter, policy parameters stored (`ngx_pcalloc` zeroes `inherit`). -/
def cacheInit (max : Nat) (valid inactive : Int) : CacheState :=
  ⟨[], 0, max, valid, inactive, false⟩

/-- Configuration-generation cache as built by
`ngx_openssl_cache_create_conf` and `ngx_openssl_cache_init_conf`:
unbounded (`max = 0`) with `inherit` defaulted to on. -/
def confCacheInit : CacheState :=
  { cacheInit 0 0 0 with inherit := true }

/-- Outcome of `ngx_ssl_cache_lookup`: the node found (if any), the updated
cache, and the number of values freed (0 or 1). -/
structure LookupOut where
  found : Option CacheNode
  cache : CacheState
  frees : Nat
deriving DecidableEq, Repr

/-- Index lookup `ngx_ssl_cache_lookup` (lines 422-480): find the node with
the matching key; on a hit in a capacity-bounded cache whose inactivity
bound is exceeded, destroy the node in place (`ngx_ssl_cache_node_free`
frees the value and unlinks the node from the index and the queue, then
`cache->current--`) and report a miss. -/
def cacheLookup (s : CacheState) (now : Int) (k : NodeKey) : LookupOut :=
  match s.entries.find? (keyMatch k) with
  | none => ⟨none, s, 0⟩
  | some cn =>
      if s.max = 0 ∨ now - cn.accessed ≤ s.inactive then ⟨some cn, s, 0⟩
      else
        ⟨none,
         { s with entries := s.entries.eraseP (keyMatch k),
                  current := s.current - 1 },
         1⟩

/-- Loop body of `ngx_ssl_cache_expire` (lines 493-510): up to `fuel`
iterations with running iteration count `n`; each iteration takes the last
queue entry, stops when the queue is empty or when `n ≠ 0` and the entry is
still within the inactivity bound, and otherwise frees the entry and
decrements `current`.  Returns the node list, the counter, and the number
of freed entries. -/
def expireGo (now inactive : Int) :
    Nat → Nat → List CacheNode → Nat → Nat → List CacheNode × Nat × Nat
  | 0, _, entries, current, frees => (entries, current, frees)
  | fuel + 1, n, entries, current, frees =>
      match entries.getLast? with
      | none => (entries, current, frees)
      | some cn =>
          if n ≠ 0 ∧ now - cn.accessed ≤ inactive then (entries, current, frees)
          else expireGo now inactive fuel (n + 1) entries.dropLast (current - 1)
            (frees + 1)

/-- Expiration sweep `ngx_ssl_cache_expire`: at most three iterations. -/
def cacheExpire (now : Int) (s : CacheState) : List CacheNode × Nat × Nat :=
  expireGo now s.inactive 3 0 s.entries s.current 0

/-- Conditional sweep of the miss-insert path (lines 370-372): the sweep
runs exactly when `current ≥ max`; otherwise the node list and counter pass
through with zero frees. -/
def connSweep (now : Int) (s1 : CacheState) : List CacheNode × Nat × Nat :=
  if s1.current ≥ s1.max then cacheExpire now s1
  else (s1.entries, s1.current, 0)

/-- Cache-bypass test of both fetch protocols (lines 191-197 and 290-296):
kind PKEY with a non-null, non-empty passphrase array. -/
def pwdBypass (index : Nat) (passwords : Option (List (List Nat))) : Bool :=
  index == 1 &&
    (match passwords with
     | some l => !l.isEmpty
     | none => false)

/-- Oracle inputs of one `ngx_ssl_cache_connection_fetch` call: the caller
arguments (kind index, spec bytes, passphrase array), the clock, the
answers of the at most two `ngx_file_info` calls, the answer of the at most
one `type->create` call, and the indeterminate bytes that a freshly
allocated node holds in `mtime`/`uniq` when no `stat` overwrites them. -/
structure ConnCall where
  index : Nat
  path : List Nat
  passwords : Option (List (List Nat))
  now : Int
  statA : Option FInfo
  statB : Option FInfo
  createRes : Option Nat
  junkMtime : Int
  junkUniq : Nat
deriving Repr

/-- Result of one fetch: the returned handle, the new cache state, and the
numbers of `create`, `ref` and `free` invocations on the kind adapter. -/
structure FetchOut where
  result : Option Nat
  cache : CacheState
  creates : Nat
  refs : Nat
  frees : Nat
deriving DecidableEq, Repr

/-- Connection-time fetch `ngx_ssl_cache_connection_fetch` (lines 270-388)
over hash oracle `hf` and configuration prefix `cp`.  Hit: unlink from the
queue, revalidate when the `valid` window has passed (a failed or changed
`stat` destroys the stored value and re-creates it; a failed re-create
deletes the node and fails the fetch), stamp `accessed`, relink at the
head, return a ref.  Miss: build a node (file metadata from `statA`, or the
indeterminate allocator bytes when `stat` fails), create the value (failure
discards the node), run the expiration sweep when `current ≥ max`, insert,
increment `current`, return a ref. -/
def connectionFetch (hf : List Nat → Nat) (cp : List Nat) (s : CacheState)
    (c : ConnCall) : FetchOut :=
  let id := initKey c.index cp c.path
  if pwdBypass c.index c.passwords then
    ⟨c.createRes, s, 1, 0, 0⟩
  else
    let hash := hf id.bytes
    let k : NodeKey := ⟨hash, c.index, id.bytes⟩
    let lk := cacheLookup s c.now k
    match lk.found with
    | some cn =>
        let rest := s.entries.eraseP (keyMatch k)
        if c.now - cn.created > s.valid then
          let changed :=
            match c.statA with
            | none => true
            | some fi => fi.uniq != cn.uniq || fi.mtime != cn.mtime
          if changed then
            match c.createRes with
            | none =>
                ⟨none, { s with entries := rest, current := s.current - 1 },
                  1, 0, 1⟩
            | some v =>
                let mu :=
                  match c.statB with
                  | some fi => (fi.mtime, fi.uniq)
                  | none => (cn.mtime, cn.uniq)
                let cn' : CacheNode :=
                  { cn with value := v, mtime := mu.1, uniq := mu.2,
                            created := c.now, accessed := c.now }
                ⟨some v, { s with entries := cn' :: rest }, 1, 1, 1⟩
          else
            let cn' : CacheNode := { cn with created := c.now, accessed := c.now }
            ⟨some cn'.value, { s with entries := cn' :: rest }, 0, 1, 0⟩
        else
          let cn' : CacheNode := { cn with accessed := c.now }
          ⟨some cn'.value, { s with entries := cn' :: rest }, 0, 1, 0⟩
    | none =>
        let s1 : CacheState := lk.cache
        let mu :=
          match c.statA with
          | some fi => (fi.mtime, fi.uniq)
          | none => (c.junkMtime, c.junkUniq)
        match c.createRes with
        | none => ⟨none, s1, 1, 0, lk.frees⟩
        | some v =>
            let swept := connSweep c.now s1
            let cn : CacheNode := ⟨hash, id, c.index, v, c.now, c.now, mu.1, mu.2⟩
            ⟨some v,
              { s with entries := cn :: swept.1, current := swept.2.1 + 1 },
              1, 1, lk.frees + swept.2.2⟩

/-- Fold a sequence of connection fetches over a cache. -/
def runConn (hf : List Nat → Nat) (cp : List Nat) (s : CacheState) :
    List ConnCall → CacheState
  | [] => s
  | c :: cs => runConn hf cp (connectionFetch hf cp s c).cache cs

/-- Oracle inputs of one `ngx_ssl_cache_fetch` call.  `junkCreated` and
`junkAccessed` are the indeterminate bytes of the pool-allocated node in
the fields that this path never assigns; `junkMtime`/`junkUniq` likewise
when the identity is not a path or its `stat` fails. -/
structure ConfCall where
  index : Nat
  path : List Nat
  passwords : Option (List (List Nat))
  now : Int
  statRes : Option FInfo
  createRes : Option Nat
  junkMtime : Int
  junkUniq : Nat
  junkCreated : Int
  junkAccessed : Int
deriving Repr

/-- Result of one configuration-time fetch: additionally carries the
(possibly modified) previous-generation cache that was probed. -/
structure ConfOut where
  result : Option Nat
  cache : CacheState
  old : Option CacheState
  creates : Nat
  refs : Nat
  frees : Nat
deriving DecidableEq, Repr

/-- Configuration-time fetch `ngx_ssl_cache_fetch` (lines 171-267) over
hash oracle `hf` and configuration prefix `cp`.  PKEY with non-empty
passphrases bypasses the cache.  Hit: return a ref.  Miss: build a node
(`stat` metadata captured only for path identities), probe the previous
generation when present and inheriting — a DATA identity reuses the old
value via `ref`, a PATH identity reuses it when the captured `(uniq,
mtime)` equal the old node's — otherwise `create`; insert (`current` is not
maintained by this path) and return a ref. -/
def confFetch (hf : List Nat → Nat) (cp : List Nat) (s : CacheState)
    (old : Option CacheState) (c : ConfCall) : ConfOut :=
  let id := initKey c.index cp c.path
  if pwdBypass c.index c.passwords then
    ⟨c.createRes, s, old, 1, 0, 0⟩
  else
    let hash := hf id.bytes
    let k : NodeKey := ⟨hash, c.index, id.bytes⟩
    let lk := cacheLookup s c.now k
    match lk.found with
    | some cn => ⟨some cn.value, s, old, 0, 1, 0⟩
    | none =>
        let s1 : CacheState := lk.cache
        let mu :=
          if id.type = .path then
            match c.statRes with
            | some fi => (fi.mtime, fi.uniq)
            | none => (c.junkMtime, c.junkUniq)
          else (c.junkMtime, c.junkUniq)
        let probe : Option CacheNode × Option CacheState × Nat :=
          match old with
          | some oc =>
              if oc.inherit then
                let olk := cacheLookup oc c.now k
                (olk.found, some olk.cache, olk.frees)
              else (none, some oc, 0)
          | none => (none, none, 0)
        let inheritVal : Option Nat :=
          match probe.1 with
          | some ocn =>
              match id.type with
              | .data => some ocn.value
              | .path =>
                  if mu.2 = ocn.uniq ∧ mu.1 = ocn.mtime then some ocn.value
                  else none
              | .engine => none
          | none => none
        match inheritVal with
        | some v =>
            let cn : CacheNode :=
              ⟨hash, id, c.index, v, c.junkCreated, c.junkAccessed, mu.1, mu.2⟩
            ⟨some v, { s1 with entries := cn :: s1.entries }, probe.2.1, 0, 2,
              probe.2.2⟩
        | none =>
            match c.createRes with
            | none => ⟨none, s1, probe.2.1, 1, 0, probe.2.2⟩
            | some v =>
                let cn : CacheNode :=
                  ⟨hash, id, c.index, v, c.junkCreated, c.junkAccessed, mu.1,
                    mu.2⟩
                ⟨some v, { s1 with entries := cn :: s1.entries }, probe.2.1, 1,
                  1, probe.2.2⟩

/-- Observable trace of `ngx_ssl_cache_pkey_create` on a non-engine
identity: the returned key, the number of `PEM_read_bio_PrivateKey`
attempts, the numbers of `BIO_reset` and `ERR_clear_error` calls between
attempts, and the passphrases attempted in order. -/
structure PkeyOut where
  result : Option Nat
  attempts : Nat
  resets : Nat
  clears : Nat
  attempted : List (List Nat)
deriving DecidableEq, Repr

/-- Passphrase retry loop of `ngx_ssl_cache_pkey_create` (lines 700-717):
attempt the parser with the current passphrase; on success stop; otherwise,
while the post-decremented `tries` counter was still above one, clear the
accumulated errors, reset the byte source, advance to the next passphrase
and retry; else fail.  `parse` is the parser oracle (the outcome of one
attempt with a given passphrase) and `junk` the indeterminate bytes read if
the pointer walks past the array. -/
def pkeyGo (parse : List Nat → Option Nat) (junk : List Nat)
    (tries : Nat) (pwds : List (List Nat)) : PkeyOut :=
  let p := pwds.headD junk
  match parse p with
  | some v => ⟨some v, 1, 0, 0, [p]⟩
  | none =>
      if h : 1 < tries then
        let o := pkeyGo parse junk (tries - 1) pwds.tail
        ⟨o.result, o.attempts + 1, o.resets + 1, o.clears + 1,
          p :: o.attempted⟩
      else ⟨none, 1, 0, 0, [p]⟩
  termination_by tries

/-- PKEY adapter `ngx_ssl_cache_pkey_create` (lines 627-722): an ENGINE
identity is served by the engine loader (oracle `engineRes`, no PEM
attempts); otherwise a byte source is opened (oracle `bioOk`), and the PEM
parser runs under the retry loop with `tries` initialized to the passphrase
count, or exactly once with no callback when the passphrase array is
null. -/
def pkeyCreate (engineRes : Option Nat) (bioOk : Bool)
    (parse : List Nat → Option Nat) (noCb : Option Nat) (junk : List Nat)
    (id : CacheKey) (passwords : Option (List (List Nat))) : PkeyOut :=
  if id.type = .engine then ⟨engineRes, 0, 0, 0, []⟩
  else if bioOk = false then ⟨none, 0, 0, 0, []⟩
  else
    match passwords with
    | some pwds => pkeyGo parse junk pwds.length pwds
    | none =>
        match noCb with
        | some v => ⟨some v, 1, 0, 0, []⟩
        | none => ⟨none, 1, 0, 0, []⟩

/-- Binary search tree over index keys; the spec (section 4.2) leaves the
balancing scheme unobservable, so the rbtree recoloring (in `ngx_rbtree.c`,
outside `src/`) is not modelled and only the comparator-driven descent
is. -/
inductive Tree where
  | nil : Tree
  | node : Tree → NodeKey → Tree → Tree
deriving DecidableEq, Repr

/-- Descent decision of `ngx_ssl_cache_node_insert` (lines 1086-1098): left
when the hashes differ and the new hash is smaller, else left when the
kinds differ and the new kind is smaller, else left exactly when
`memn2cmp` is negative. -/
def nodeInsertLeft (n t : NodeKey) : Bool :=
  if n.hash ≠ t.hash then decide (n.hash < t.hash)
  else if n.kind ≠ t.kind then decide (n.kind < t.kind)
  else memn2cmp n.bytes t.bytes == .lt

/-- Insert path of `ngx_ssl_cache_node_insert`: descend by
`nodeInsertLeft` to a leaf and attach the new key there. -/
def bstInsert : Tree → NodeKey → Tree
  | .nil, k => .node .nil k .nil
  | .node l k' r, k =>
      if nodeInsertLeft k k' then .node (bstInsert l k) k' r
      else .node l k' (bstInsert r k)

/-- Search path of `ngx_ssl_cache_lookup` (lines 433-477, the descent
only): left on smaller hash, right on larger, then the same for the kind,
then by the sign of `memn2cmp`, stopping at an exact match. -/
def bstSearch : Tree → NodeKey → Option NodeKey
  | .nil, _ => none
  | .node l k' r, k =>
      if k.hash < k'.hash then bstSearch l k
      else if k'.hash < k.hash then bstSearch r k
      else if k.kind < k'.kind then bstSearch l k
      else if k'.kind < k.kind then bstSearch r k
      else
        match memn2cmp k.bytes k'.bytes with
        | .eq => some k'
        | .lt => bstSearch l k
        | .gt => bstSearch r k

/-- Concrete instance of the hash oracle (the real `ngx_murmur_hash2` is in
`ngx_murmur_hash.c`, outside `src/`; the protocols only pass its result
through, so witnesses may use any function). -/
def hashMock : List Nat → Nat := fun bs => bs.headD 0

end NgxSslCache

namespace NgxSslCache

lemma memn2cmp_self : ∀ as : List Nat, memn2cmp as as = .eq
  | [] => rfl
  | a :: as => by
      simp [memn2cmp, memn2cmp_self as]

lemma keyCmp_self (k : NodeKey) : keyCmp k k = .eq := by
  simp [keyCmp, memn2cmp_self]

lemma keyMatch_self (cn : CacheNode) : keyMatch (nodeKey cn) cn = true := by
  unfold keyMatch
  rw [keyCmp_self]
  rfl

lemma eraseP_length_of_find {l : List CacheNode} {p : CacheNode → Bool}
    {cn : CacheNode} (h : l.find? p = some cn) :
    (l.eraseP p).length + 1 = l.length :=
  List.length_eraseP_add_one (List.mem_of_find?_eq_some h) (List.find?_some h)

lemma cacheLookup_eq_of_find_none {s : CacheState} {now : Int} {k : NodeKey}
    (hfind : s.entries.find? (keyMatch k) = none) :
    cacheLookup s now k = ⟨none, s, 0⟩ := by
  unfold cacheLookup
  rw [hfind]

lemma cacheLookup_eq_of_fresh {s : CacheState} {now : Int} {k : NodeKey}
    {cn : CacheNode} (hfind : s.entries.find? (keyMatch k) = some cn)
    (hc : s.max = 0 ∨ now - cn.accessed ≤ s.inactive) :
    cacheLookup s now k = ⟨some cn, s, 0⟩ := by
  unfold cacheLookup
  rw [hfind]
  exact if_pos hc

lemma cacheLookup_eq_of_stale {s : CacheState} {now : Int} {k : NodeKey}
    {cn : CacheNode} (hfind : s.entries.find? (keyMatch k) = some cn)
    (hc : ¬ (s.max = 0 ∨ now - cn.accessed ≤ s.inactive)) :
    cacheLookup s now k =
      ⟨none,
       { s with entries := s.entries.eraseP (keyMatch k),
                current := s.current - 1 },
       1⟩ := by
  unfold cacheLookup
  rw [hfind]
  exact if_neg hc

lemma cacheLookup_cases (s : CacheState) (now : Int) (k : NodeKey) :
    cacheLookup s now k = ⟨none, s, 0⟩ ∧
      s.entries.find? (keyMatch k) = none ∨
    (∃ cn, s.entries.find? (keyMatch k) = some cn ∧
      (s.max = 0 ∨ now - cn.accessed ≤ s.inactive) ∧
      cacheLookup s now k = ⟨some cn, s, 0⟩) ∨
    (∃ cn, s.entries.find? (keyMatch k) = some cn ∧
      ¬ (s.max = 0 ∨ now - cn.accessed ≤ s.inactive) ∧
      cacheLookup s now k =
        ⟨none,
         { s with entries := s.entries.eraseP (keyMatch k),
                  current := s.current - 1 },
         1⟩) := by
  rcases hfind : s.entries.find? (keyMatch k) with _ | cn
  · exact Or.inl ⟨cacheLookup_eq_of_find_none hfind, rfl⟩
  · by_cases hc : s.max = 0 ∨ now - cn.accessed ≤ s.inactive
    · exact Or.inr (Or.inl ⟨cn, rfl, hc, cacheLookup_eq_of_fresh hfind hc⟩)
    · exact Or.inr (Or.inr ⟨cn, rfl, hc, cacheLookup_eq_of_stale hfind hc⟩)

lemma cacheLookup_inv {s : CacheState} {now : Int} {k : NodeKey}
    (h : s.current = s.entries.length) :
    (cacheLookup s now k).cache.current =
      (cacheLookup s now k).cache.entries.length := by
  rcases cacheLookup_cases s now k with ⟨he, -⟩ | ⟨cn, -, -, he⟩ |
    ⟨cn, hfind, -, he⟩
  · rw [he]
    exact h
  · rw [he]
    exact h
  · rw [he]
    have := eraseP_length_of_find hfind
    simp only
    omega

/-- C5: a lookup in a capacity-bounded cache that finds a matching entry
whose inactivity bound is exceeded destroys the entry in place — one value
freed, the entry removed from the node list (index and recency list),
`current` decremented — and returns a miss instead of the entry. -/
theorem claim_C5 (s : CacheState) (now : Int) (k : NodeKey) (cn : CacheNode)
    (hfind : s.entries.find? (keyMatch k) = some cn)
    (hmax : 0 < s.max)
    (hstale : s.inactive < now - cn.accessed) :
    (cacheLookup s now k).found = none ∧
    (cacheLookup s now k).frees = 1 ∧
    (cacheLookup s now k).cache.entries = s.entries.eraseP (keyMatch k) ∧
    (cacheLookup s now k).cache.entries.length + 1 = s.entries.length ∧
    (cacheLookup s now k).cache.current = s.current - 1 := by
  have hc : ¬ (s.max = 0 ∨ now - cn.accessed ≤ s.inactive) := by
    push_neg
    exact ⟨by omega, by omega⟩
  rw [cacheLookup_eq_of_stale hfind hc]
  refine ⟨rfl, rfl, rfl, ?_, rfl⟩
  exact eraseP_length_of_find hfind

/-- Witness for C5 at a concrete cache: one path entry accessed at time 0,
`inactive = 10`, looked up at time 100. -/
theorem claim_C5_witness :
    (cacheLookup ⟨[⟨9, ⟨.path, [9]⟩, 0, 11, 0, 0, 0, 0⟩], 1, 1, 0, 10, false⟩
        100 ⟨9, 0, [9]⟩).found = none ∧
    (cacheLookup ⟨[⟨9, ⟨.path, [9]⟩, 0, 11, 0, 0, 0, 0⟩], 1, 1, 0, 10, false⟩
        100 ⟨9, 0, [9]⟩).frees = 1 ∧
    (cacheLookup ⟨[⟨9, ⟨.path, [9]⟩, 0, 11, 0, 0, 0, 0⟩], 1, 1, 0, 10, false⟩
        100 ⟨9, 0, [9]⟩).cache.entries =
      List.eraseP (keyMatch ⟨9, 0, [9]⟩)
        [⟨9, ⟨.path, [9]⟩, 0, 11, 0, 0, 0, 0⟩] ∧
    (cacheLookup ⟨[⟨9, ⟨.path, [9]⟩, 0, 11, 0, 0, 0, 0⟩], 1, 1, 0, 10, false⟩
        100 ⟨9, 0, [9]⟩).cache.entries.length + 1 = 1 ∧
    (cacheLookup ⟨[⟨9, ⟨.path, [9]⟩, 0, 11, 0, 0, 0, 0⟩], 1, 1, 0, 10, false⟩
        100 ⟨9, 0, [9]⟩).cache.current = 0 :=
  claim_C5 ⟨[⟨9, ⟨.path, [9]⟩, 0, 11, 0, 0, 0, 0⟩], 1, 1, 0, 10, false⟩
    100 ⟨9, 0, [9]⟩ ⟨9, ⟨.path, [9]⟩, 0, 11, 0, 0, 0, 0⟩
    (by decide) (by decide) (by decide)

end NgxSslCache

namespace NgxSslCache

lemma pwdBypass_true {index : Nat} {passwords : Option (List (List Nat))}
    {l : List (List Nat)} (hidx : index = 1) (hl : passwords = some l)
    (hne : l ≠ []) : pwdBypass index passwords = true := by
  subst hidx
  subst hl
  cases l with
  | nil => exact absurd rfl hne
  | cons p ps => rfl

/-- C6: a fetch — configuration-time or connection-time — of kind PKEY with
a non-empty passphrase list returns the result of the kind's `create`
directly and leaves the cache (and, for the configuration protocol, the
previous-generation cache) completely untouched: no lookup, no insert, no
`ref`, no `free`, identical state before and after. -/
theorem claim_C6 (hf : List Nat → Nat) (cp : List Nat) (s : CacheState)
    (old : Option CacheState) (cc : ConfCall) (nc : ConnCall)
    (l1 l2 : List (List Nat))
    (hidx1 : cc.index = 1) (hl1 : cc.passwords = some l1) (hne1 : l1 ≠ [])
    (hidx2 : nc.index = 1) (hl2 : nc.passwords = some l2) (hne2 : l2 ≠ []) :
    confFetch hf cp s old cc = ⟨cc.createRes, s, old, 1, 0, 0⟩ ∧
    connectionFetch hf cp s nc = ⟨nc.createRes, s, 1, 0, 0⟩ := by
  have hb1 := pwdBypass_true hidx1 hl1 hne1
  have hb2 := pwdBypass_true hidx2 hl2 hne2
  constructor
  · unfold confFetch
    rw [hb1]
    rfl
  · unfold connectionFetch
    rw [hb2]
    rfl

/-- Witness for C6: a PKEY fetch with passphrase list `[[7]]` against a
one-entry connection cache and a one-entry configuration cache. -/
theorem claim_C6_witness :
    confFetch hashMock [] (cacheInit 4 5 6) none
        ⟨1, [9], some [[7]], 0, none, some 3, 0, 0, 0, 0⟩ =
      ⟨some 3, cacheInit 4 5 6, none, 1, 0, 0⟩ ∧
    connectionFetch hashMock [] (cacheInit 4 5 6)
        ⟨1, [9], some [[7]], 0, none, none, some 3, 0, 0⟩ =
      ⟨some 3, cacheInit 4 5 6, 1, 0, 0⟩ :=
  claim_C6 hashMock [] (cacheInit 4 5 6) none
    ⟨1, [9], some [[7]], 0, none, some 3, 0, 0, 0, 0⟩
    ⟨1, [9], some [[7]], 0, none, none, some 3, 0, 0⟩
    [[7]] [[7]] rfl rfl (by decide) rfl rfl (by decide)

/-- Previous-generation cache used to exhibit the C3 defect: it holds one
PATH entry for identity bytes "/a" (47, 97) with `mtime = 100`,
`uniq = 5`. -/
def c3old : CacheState :=
  ⟨[⟨47, ⟨.path, [47, 97]⟩, 0, 55, 0, 0, 100, 5⟩], 0, 0, 0, 0, true⟩

/-- Failing input for C3: a configuration fetch of the same PATH identity
in the new generation whose `stat()` fails (`statRes = none`), while the
uninitialized pool memory behind the fresh node happens to hold
`mtime = 100`, `uniq = 5` — equal to the old entry's metadata. -/
def c3call : ConfCall :=
  ⟨0, [47, 97], none, 0, none, some 9, 100, 5, 0, 0⟩

/-- C3 (defect evaluation): the claim says that when `stat()` fails in the
new generation the old value is never inherited and a fresh `create` runs.
In the code the fresh node's `mtime`/`uniq` are left uninitialized when
`ngx_file_info` fails (line 226 has no else branch after `ngx_palloc`), and
the inheritance comparison at line 247 then reads those indeterminate
bytes: at this input the stale value 55 is inherited with zero `create`
calls even though `stat()` failed. -/
theorem claim_C3_bug :
    c3call.statRes = none ∧
    (confFetch hashMock [] confCacheInit (some c3old) c3call).creates = 0 ∧
    (confFetch hashMock [] confCacheInit (some c3old) c3call).result =
      some 55 ∧
    (confFetch hashMock [] confCacheInit (some c3old) c3call).refs = 2 := by
  decide

/-- Connection cache used for the C8 counterexample: one entry with key
bytes [9], accessed at time 0, in a cache with `inactive = 10` and a
`valid` window so large that the refresh path is never entered. -/
def c8cache : CacheState :=
  ⟨[⟨9, ⟨.path, [9]⟩, 0, 11, 0, 0, 0, 0⟩], 1, 1, 1000000, 10, false⟩

/-- C8 counterexample call: a fetch of the same identity at time 100 whose
`create` fails. -/
def c8call : ConnCall :=
  ⟨0, [9], none, 100, none, none, none, 0, 0⟩

/-- C8 (counterexample): a connection fetch that returns failure and is not
on the refresh path (the entry's revalidation window had not passed)
nevertheless changes the cache: the lookup destroys the stale matching
entry (`now - accessed > inactive`) before the miss-path `create` fails, so
the failed fetch leaves the index empty and `current = 0`. -/
theorem claim_C8_counterexample :
    (connectionFetch hashMock [] c8cache c8call).result = none ∧
    (connectionFetch hashMock [] c8cache c8call).cache ≠ c8cache ∧
    (connectionFetch hashMock [] c8cache c8call).cache.entries = [] ∧
    (connectionFetch hashMock [] c8cache c8call).cache.current = 0 ∧
    c8call.now - (⟨9, ⟨.path, [9]⟩, 0, 11, 0, 0, 0, 0⟩ : CacheNode).created ≤
      c8cache.valid := by
  decide

end NgxSslCache

namespace NgxSslCache

lemma confFetch_miss_none_old {hf : List Nat → Nat} {cp : List Nat}
    {s : CacheState} {c : ConfCall} {v : Nat}
    (hb : pwdBypass c.index c.passwords = false)
    (hfind : s.entries.find?
      (keyMatch ⟨hf (initKey c.index cp c.path).bytes, c.index,
        (initKey c.index cp c.path).bytes⟩) = none)
    (hcr : c.createRes = some v) :
    ∃ cn, confFetch hf cp s none c =
      ⟨some v, { s with entries := cn :: s.entries }, none, 1, 1, 0⟩ ∧
      nodeKey cn = ⟨hf (initKey c.index cp c.path).bytes, c.index,
        (initKey c.index cp c.path).bytes⟩ ∧
      cn.value = v := by
  simp only [confFetch, hb, Bool.false_eq_true, if_false,
    cacheLookup_eq_of_find_none hfind, hcr]
  exact ⟨_, rfl, rfl, rfl⟩

lemma confFetch_hit {hf : List Nat → Nat} {cp : List Nat}
    {s : CacheState} {old : Option CacheState} {c : ConfCall} {cn : CacheNode}
    (hb : pwdBypass c.index c.passwords = false)
    (hfind : s.entries.find?
      (keyMatch ⟨hf (initKey c.index cp c.path).bytes, c.index,
        (initKey c.index cp c.path).bytes⟩) = some cn)
    (hfresh : s.max = 0 ∨ c.now - cn.accessed ≤ s.inactive) :
    confFetch hf cp s old c = ⟨some cn.value, s, old, 0, 1, 0⟩ := by
  simp only [confFetch, hb, Bool.false_eq_true, if_false,
    cacheLookup_eq_of_fresh hfind hfresh]

lemma confFetch_miss_engine {hf : List Nat → Nat} {cp : List Nat}
    {s : CacheState} {oc : CacheState} {c : ConfCall} {v : Nat}
    (hb : pwdBypass c.index c.passwords = false)
    (hfind : s.entries.find?
      (keyMatch ⟨hf (initKey c.index cp c.path).bytes, c.index,
        (initKey c.index cp c.path).bytes⟩) = none)
    (heng : (initKey c.index cp c.path).type = KeyTag.engine)
    (hcr : c.createRes = some v) :
    ∃ cn old1 fr, confFetch hf cp s (some oc) c =
      ⟨some v, { s with entries := cn :: s.entries }, old1, 1, 1, fr⟩ ∧
      nodeKey cn = ⟨hf (initKey c.index cp c.path).bytes, c.index,
        (initKey c.index cp c.path).bytes⟩ ∧
      cn.value = v := by
  by_cases hoi : oc.inherit
  · rcases holk : (cacheLookup oc c.now
        ⟨hf (initKey c.index cp c.path).bytes, c.index,
          (initKey c.index cp c.path).bytes⟩).found with _ | ocn
    · simp only [confFetch, hb, Bool.false_eq_true, if_false,
        cacheLookup_eq_of_find_none hfind, hcr, heng, hoi, if_true, holk]
      exact ⟨_, _, _, rfl, rfl, rfl⟩
    · simp only [confFetch, hb, Bool.false_eq_true, if_false,
        cacheLookup_eq_of_find_none hfind, hcr, heng, hoi, if_true, holk]
      exact ⟨_, _, _, rfl, rfl, rfl⟩
  · simp only [confFetch, hb, Bool.false_eq_true, if_false,
      cacheLookup_eq_of_find_none hfind, hcr, heng, hoi, if_false]
    exact ⟨_, _, _, rfl, rfl, rfl⟩

lemma not_dataPfx_of_enginePfx {path : List Nat}
    (h : enginePfx.isPrefixOf path) : ¬ dataPfx.isPrefixOf path := by
  intro hd
  rcases path with _ | ⟨b, rest⟩
  · simp [enginePfx, List.isPrefixOf] at h
  · simp [enginePfx, List.isPrefixOf] at h
    simp [dataPfx, List.isPrefixOf] at hd
    omega

lemma initKey_engine {cp path : List Nat} (h : enginePfx.isPrefixOf path) :
    initKey 1 cp path = ⟨.engine, path⟩ := by
  unfold initKey
  rw [if_neg, if_pos ⟨rfl, h⟩]
  intro hc
  exact not_dataPfx_of_enginePfx h hc.2

/-- C2: two successive configuration fetches of the same (kind, spec)
against a fresh generation with no passphrase bypass invoke the kind's
`create` exactly once, its `ref` (duplicate) exactly twice — once per
returned handle — and its `free` (destroy) zero times, both return the
created value, and exactly one entry for that identity remains in the
index. -/
theorem claim_C2 (hf : List Nat → Nat) (cp : List Nat) (c1 c2 : ConfCall)
    (v : Nat)
    (hidx : c2.index = c1.index) (hpath : c2.path = c1.path)
    (hb1 : pwdBypass c1.index c1.passwords = false)
    (hb2 : pwdBypass c2.index c2.passwords = false)
    (hcr : c1.createRes = some v) :
    (confFetch hf cp confCacheInit none c1).creates +
      (confFetch hf cp (confFetch hf cp confCacheInit none c1).cache none
        c2).creates = 1 ∧
    (confFetch hf cp confCacheInit none c1).refs +
      (confFetch hf cp (confFetch hf cp confCacheInit none c1).cache none
        c2).refs = 2 ∧
    (confFetch hf cp confCacheInit none c1).frees +
      (confFetch hf cp (confFetch hf cp confCacheInit none c1).cache none
        c2).frees = 0 ∧
    (confFetch hf cp confCacheInit none c1).result = some v ∧
    (confFetch hf cp (confFetch hf cp confCacheInit none c1).cache none
        c2).result = some v ∧
    (confFetch hf cp (confFetch hf cp confCacheInit none c1).cache none
        c2).cache.entries.length = 1 := by
  obtain ⟨cn, ho1, hkey, hval⟩ :=
    @confFetch_miss_none_old hf cp confCacheInit c1 v
      hb1 (by simp [confCacheInit, cacheInit]) hcr
  have hfind2 : (confFetch hf cp confCacheInit none c1).cache.entries.find?
      (keyMatch ⟨hf (initKey c2.index cp c2.path).bytes, c2.index,
        (initKey c2.index cp c2.path).bytes⟩) = some cn := by
    rw [ho1, hidx, hpath]
    exact List.find?_cons_of_pos _ (by rw [← hkey]; exact keyMatch_self cn)
  have hmax2 : (confFetch hf cp confCacheInit none c1).cache.max = 0 := by
    rw [ho1]
    rfl
  have ho2 := @confFetch_hit hf cp _ none c2 cn hb2 hfind2 (Or.inl hmax2)
  rw [ho2, ho1]
  simp [hval, confCacheInit, cacheInit]

/-- First call of the C2 witness: CERT fetch of path "/a" (bytes 47, 97)
whose parse yields value 5. -/
def c2wa : ConfCall := ⟨0, [47, 97], none, 0, none, some 5, 1, 2, 3, 4⟩

/-- Second call of the C2 witness: same kind and spec, different oracle
answers. -/
def c2wb : ConfCall := ⟨0, [47, 97], none, 7, none, some 6, 9, 9, 9, 9⟩

/-- Witness for C2 at the concrete two-call scenario. -/
theorem claim_C2_witness :
    (confFetch hashMock [] confCacheInit none c2wa).creates +
      (confFetch hashMock [] (confFetch hashMock [] confCacheInit none
        c2wa).cache none c2wb).creates = 1 ∧
    (confFetch hashMock [] confCacheInit none c2wa).refs +
      (confFetch hashMock [] (confFetch hashMock [] confCacheInit none
        c2wa).cache none c2wb).refs = 2 ∧
    (confFetch hashMock [] confCacheInit none c2wa).frees +
      (confFetch hashMock [] (confFetch hashMock [] confCacheInit none
        c2wa).cache none c2wb).frees = 0 ∧
    (confFetch hashMock [] confCacheInit none c2wa).result = some 5 ∧
    (confFetch hashMock [] (confFetch hashMock [] confCacheInit none
        c2wa).cache none c2wb).result = some 5 ∧
    (confFetch hashMock [] (confFetch hashMock [] confCacheInit none
        c2wa).cache none c2wb).cache.entries.length = 1 :=
  claim_C2 hashMock [] c2wa c2wb 5 rfl rfl rfl rfl rfl

/-- C10: a configuration fetch of a PKEY with an ENGINE-tagged identity
that misses the current generation never reuses the previous-generation
value — the theorem quantifies over every old cache `oc`, in particular
inheriting ones holding an entry with the identical key — because the
inheritance switch handles only DATA and PATH tags: the key is freshly
created (`creates = 1`) and only the returned handle is referenced
(`refs = 1`, an inherit would make it 2), and a second fetch in the same
generation then hits the cached entry with zero creates. -/
theorem claim_C10 (hf : List Nat → Nat) (cp : List Nat) (s oc : CacheState)
    (c c2 : ConfCall) (v : Nat)
    (hidx : c.index = 1)
    (heng : enginePfx.isPrefixOf c.path)
    (hb : pwdBypass c.index c.passwords = false)
    (hmiss : s.entries.find?
      (keyMatch ⟨hf (initKey c.index cp c.path).bytes, c.index,
        (initKey c.index cp c.path).bytes⟩) = none)
    (hmax : s.max = 0)
    (hcr : c.createRes = some v)
    (hidx2 : c2.index = c.index) (hpath2 : c2.path = c.path)
    (hb2 : pwdBypass c2.index c2.passwords = false) :
    (confFetch hf cp s (some oc) c).creates = 1 ∧
    (confFetch hf cp s (some oc) c).refs = 1 ∧
    (confFetch hf cp s (some oc) c).result = some v ∧
    (confFetch hf cp (confFetch hf cp s (some oc) c).cache (some oc)
       c2).creates = 0 ∧
    (confFetch hf cp (confFetch hf cp s (some oc) c).cache (some oc)
       c2).result = some v := by
  have htype : (initKey c.index cp c.path).type = KeyTag.engine := by
    rw [hidx, initKey_engine heng]
  obtain ⟨cn, old1, fr, ho1, hkey, hval⟩ :=
    @confFetch_miss_engine hf cp s oc c v hb hmiss htype hcr
  have hfind2 : (confFetch hf cp s (some oc) c).cache.entries.find?
      (keyMatch ⟨hf (initKey c2.index cp c2.path).bytes, c2.index,
        (initKey c2.index cp c2.path).bytes⟩) = some cn := by
    rw [ho1, hidx2, hpath2]
    exact List.find?_cons_of_pos _ (by rw [← hkey]; exact keyMatch_self cn)
  have hmax2 : (confFetch hf cp s (some oc) c).cache.max = 0 := by
    rw [ho1]
    exact hmax
  have ho2 := @confFetch_hit hf cp _ (some oc) c2 cn hb2 hfind2 (Or.inl hmax2)
  rw [ho2, ho1]
  simp [hval]

/-- Engine-key spec bytes "engine:" followed by byte 9, used by the C10
witness. -/
def c10path : List Nat := [101, 110, 103, 105, 110, 101, 58, 9]

/-- Old-generation cache of the C10 witness: it inherits and already holds
an entry with the identical key (hash 101, kind 1, same bytes) and value
77. -/
def c10old : CacheState :=
  ⟨[⟨101, ⟨.engine, c10path⟩, 1, 77, 0, 0, 0, 0⟩], 0, 0, 0, 0, true⟩

/-- First C10 witness call: PKEY fetch of the engine spec, parse yields
value 5. -/
def c10a : ConfCall := ⟨1, c10path, none, 0, none, some 5, 1, 2, 3, 4⟩

/-- Second C10 witness call in the same generation. -/
def c10b : ConfCall := ⟨1, c10path, none, 7, none, some 6, 9, 9, 9, 9⟩

/-- Witness for C10: despite the matching inheriting old entry (value 77),
the fetch creates value 5 afresh and the second fetch hits it. -/
theorem claim_C10_witness :
    (confFetch hashMock [] confCacheInit (some c10old) c10a).creates = 1 ∧
    (confFetch hashMock [] confCacheInit (some c10old) c10a).refs = 1 ∧
    (confFetch hashMock [] confCacheInit (some c10old) c10a).result =
      some 5 ∧
    (confFetch hashMock []
      (confFetch hashMock [] confCacheInit (some c10old) c10a).cache
      (some c10old) c10b).creates = 0 ∧
    (confFetch hashMock []
      (confFetch hashMock [] confCacheInit (some c10old) c10a).cache
      (some c10old) c10b).result = some 5 :=
  claim_C10 hashMock [] confCacheInit c10old c10a c10b 5 rfl (by decide)
    rfl (by decide) rfl rfl rfl rfl rfl

end NgxSslCache

namespace NgxSslCache

/-- C8 (amended): every fetch that returns failure leaves the cache state
exactly as before the call, except that a failing connection fetch may
remove the single entry with the fetched key — via the refresh path (the
revalidation window passed and the re-create failed) or via the
lookup-time eviction of a stale entry performed before the fetch went on
to fail.  Configuration fetches (on their unbounded caches) never modify
the cache on failure. -/
theorem claim_C8_amended :
    (∀ (hf : List Nat → Nat) (cp : List Nat) (s : CacheState)
       (old : Option CacheState) (c : ConfCall),
       s.max = 0 →
       (confFetch hf cp s old c).result = none →
       (confFetch hf cp s old c).cache = s) ∧
    (∀ (hf : List Nat → Nat) (cp : List Nat) (s : CacheState) (c : ConnCall),
       (connectionFetch hf cp s c).result = none →
       (connectionFetch hf cp s c).cache = s ∨
       ∃ cn, s.entries.find?
           (keyMatch ⟨hf (initKey c.index cp c.path).bytes, c.index,
             (initKey c.index cp c.path).bytes⟩) = some cn ∧
         (connectionFetch hf cp s c).cache =
           { s with
             entries := (s.entries.eraseP
               (keyMatch ⟨hf (initKey c.index cp c.path).bytes, c.index,
                 (initKey c.index cp c.path).bytes⟩)),
             current := s.current - 1 } ∧
         (s.inactive < c.now - cn.accessed ∨
           (s.valid < c.now - cn.created ∧ c.createRes = none))) := by
  constructor
  · intro hf cp s old c hmax hres
    by_cases hb : pwdBypass c.index c.passwords
    · unfold confFetch at hres ⊢
      rw [if_pos hb] at hres ⊢
    · simp only [Bool.not_eq_true] at hb
      rcases cacheLookup_cases s c.now
          ⟨hf (initKey c.index cp c.path).bytes, c.index,
            (initKey c.index cp c.path).bytes⟩ with
        ⟨hlk, hfind⟩ | ⟨cn, hfind, hfresh, hlk⟩ | ⟨cn, hfind, hstale, hlk⟩
      · simp only [confFetch, hb, Bool.false_eq_true, if_false, hlk] at hres ⊢
        split at hres
        · simp at hres
        · split at hres
          · rfl
          · simp at hres
      · rw [confFetch_hit hb hfind hfresh] at hres
        simp at hres
      · exact absurd (Or.inl hmax) hstale
  · intro hf cp s c hres
    by_cases hb : pwdBypass c.index c.passwords
    · left
      unfold connectionFetch at hres ⊢
      rw [if_pos hb] at hres ⊢
    · simp only [Bool.not_eq_true] at hb
      rcases cacheLookup_cases s c.now
          ⟨hf (initKey c.index cp c.path).bytes, c.index,
            (initKey c.index cp c.path).bytes⟩ with
        ⟨hlk, hfind⟩ | ⟨cn, hfind, hfresh, hlk⟩ | ⟨cn, hfind, hstale, hlk⟩
      · -- clean miss
        rcases hcr : c.createRes with _ | v
        · left
          simp only [connectionFetch, hb, Bool.false_eq_true, if_false, hlk,
            hcr]
        · simp only [connectionFetch, hb, Bool.false_eq_true, if_false, hlk,
            hcr] at hres
          simp at hres
      · -- hit
        by_cases hvalid : c.now - cn.created > s.valid
        · rcases hstat : c.statA with _ | fi
          · -- stat failed: changed = true
            rcases hcr : c.createRes with _ | v
            · right
              refine ⟨cn, hfind, ?_, Or.inr ⟨by omega, rfl⟩⟩
              simp only [connectionFetch, hb, Bool.false_eq_true, if_false,
                hlk, hstat, hcr, if_pos hvalid]
              simp
            · simp only [connectionFetch, hb, Bool.false_eq_true, if_false,
                hlk, hstat, hcr, if_pos hvalid] at hres
              simp at hres
          · by_cases hch : (fi.uniq != cn.uniq || fi.mtime != cn.mtime) = true
            · rcases hcr : c.createRes with _ | v
              · right
                refine ⟨cn, hfind, ?_, Or.inr ⟨by omega, rfl⟩⟩
                simp only [connectionFetch, hb, Bool.false_eq_true, if_false,
                  hlk, hstat, hcr, if_pos hvalid, hch, if_true]
              · simp only [connectionFetch, hb, Bool.false_eq_true, if_false,
                  hlk, hstat, hcr, if_pos hvalid, hch, if_true] at hres
                simp at hres
            · simp only [Bool.not_eq_true] at hch
              simp only [connectionFetch, hb, Bool.false_eq_true, if_false,
                hlk, hstat, if_pos hvalid, hch, Bool.false_eq_true,
                if_false] at hres
              simp at hres
        · simp only [connectionFetch, hb, Bool.false_eq_true, if_false, hlk,
            if_neg hvalid] at hres
          simp at hres
      · -- stale eviction during lookup, then miss
        push_neg at hstale
        rcases hcr : c.createRes with _ | v
        · right
          refine ⟨cn, hfind, ?_, Or.inl hstale.2⟩
          simp only [connectionFetch, hb, Bool.false_eq_true, if_false, hlk,
            hcr]
        · simp only [connectionFetch, hb, Bool.false_eq_true, if_false, hlk,
            hcr] at hres
          simp at hres

/-- Witness for C8 (amended), applying both parts at concrete inputs: a
failing configuration fetch (create fails on an empty cache) and the
failing connection fetch of the counterexample cache. -/
theorem claim_C8_amended_witness :
    (confFetch hashMock [] confCacheInit none
        ⟨0, [47, 97], none, 0, none, none, 1, 2, 3, 4⟩).cache =
      confCacheInit ∧
    ((connectionFetch hashMock [] c8cache c8call).cache = c8cache ∨
     ∃ cn, c8cache.entries.find?
         (keyMatch ⟨hashMock (initKey c8call.index [] c8call.path).bytes,
           c8call.index, (initKey c8call.index [] c8call.path).bytes⟩) =
         some cn ∧
       (connectionFetch hashMock [] c8cache c8call).cache =
         { c8cache with
           entries := (c8cache.entries.eraseP
             (keyMatch ⟨hashMock (initKey c8call.index [] c8call.path).bytes,
               c8call.index, (initKey c8call.index [] c8call.path).bytes⟩)),
           current := c8cache.current - 1 } ∧
       (c8cache.inactive < c8call.now - cn.accessed ∨
         (c8cache.valid < c8call.now - cn.created ∧
           c8call.createRes = none))) :=
  ⟨claim_C8_amended.1 hashMock [] confCacheInit none
      ⟨0, [47, 97], none, 0, none, none, 1, 2, 3, 4⟩ rfl (by decide),
   claim_C8_amended.2 hashMock [] c8cache c8call (by decide)⟩

end NgxSslCache

namespace NgxSslCache

lemma pkeyGo_head_some {parse : List Nat → Option Nat} {junk p : List Nat}
    {rest : List (List Nat)} {tries v : Nat} (hp : parse p = some v) :
    pkeyGo parse junk tries (p :: rest) = ⟨some v, 1, 0, 0, [p]⟩ := by
  rw [pkeyGo]
  simp [hp]

lemma pkeyGo_head_none_last {parse : List Nat → Option Nat}
    {junk p : List Nat} {rest : List (List Nat)} (hp : parse p = none) :
    pkeyGo parse junk 1 (p :: rest) = ⟨none, 1, 0, 0, [p]⟩ := by
  rw [pkeyGo]
  simp [hp]

lemma pkeyGo_head_none_retry {parse : List Nat → Option Nat}
    {junk p : List Nat} {rest : List (List Nat)} {tries : Nat}
    (hp : parse p = none) (ht : 1 < tries) :
    pkeyGo parse junk tries (p :: rest) =
      ⟨(pkeyGo parse junk (tries - 1) rest).result,
       (pkeyGo parse junk (tries - 1) rest).attempts + 1,
       (pkeyGo parse junk (tries - 1) rest).resets + 1,
       (pkeyGo parse junk (tries - 1) rest).clears + 1,
       p :: (pkeyGo parse junk (tries - 1) rest).attempted⟩ := by
  rw [pkeyGo]
  simp [hp, ht]


lemma pkeyGo_spec (parse : List Nat → Option Nat) (junk : List Nat) :
    ∀ pwds : List (List Nat), pwds ≠ [] →
      (pkeyGo parse junk pwds.length pwds).attempted =
        pwds.take (pkeyGo parse junk pwds.length pwds).attempts ∧
      1 ≤ (pkeyGo parse junk pwds.length pwds).attempts ∧
      (pkeyGo parse junk pwds.length pwds).attempts ≤ pwds.length ∧
      (pkeyGo parse junk pwds.length pwds).resets =
        (pkeyGo parse junk pwds.length pwds).attempts - 1 ∧
      (pkeyGo parse junk pwds.length pwds).clears =
        (pkeyGo parse junk pwds.length pwds).attempts - 1 ∧
      (∀ p ∈ (pkeyGo parse junk pwds.length pwds).attempted.dropLast,
        parse p = none) ∧
      ((pkeyGo parse junk pwds.length pwds).result = none ↔
        ∀ p ∈ pwds, parse p = none) ∧
      (∀ v, (pkeyGo parse junk pwds.length pwds).result = some v →
        ∃ p, (pkeyGo parse junk pwds.length pwds).attempted.getLast? = some p ∧
          parse p = some v) := by
  intro pwds
  induction pwds with
  | nil => exact fun h => absurd rfl h
  | cons p rest ih =>
    intro hne0
    rcases hp : parse p with _ | v
    · rcases rest with _ | ⟨q, rest2⟩
      · rw [show ([p] : List (List Nat)).length = 1 from rfl,
          pkeyGo_head_none_last hp]
        refine ⟨rfl, le_refl 1, le_refl 1, rfl, rfl, ?_, ?_, ?_⟩
        · intro x hx
          simp at hx
        · simp [hp]
        · intro v hv
          simp at hv
      · obtain ⟨iha, ih1, ihlen, ihr, ihc, ihdrop, ihiff, ihlast⟩ :=
          ih (by simp)
        have ht : 1 < (p :: q :: rest2).length := by
          simp
        rw [pkeyGo_head_none_retry hp ht]
        clear ih hne0
        simp only [List.length_cons, Nat.add_sub_cancel] at *
        set o := pkeyGo parse junk (rest2.length + 1) (q :: rest2) with ho
        have hne : o.attempted ≠ [] := by
          rw [iha]
          intro hcon
          have hlen2 := congrArg List.length hcon
          rw [List.length_take] at hlen2
          simp only [List.length_nil, List.length_cons] at hlen2
          omega
        refine ⟨?_, ?_, ?_, ?_, ?_, ?_, ?_, ?_⟩
        · rw [iha, List.take_succ_cons]
        · omega
        · omega
        · omega
        · omega
        · intro x hx
          rw [List.dropLast_cons_of_ne_nil hne] at hx
          rcases List.mem_cons.mp hx with hx1 | hx1
          · rw [hx1]
            exact hp
          · exact ihdrop x hx1
        · rw [ihiff]
          constructor
          · intro hall x hx
            rcases List.mem_cons.mp hx with hx1 | hx1
            · rw [hx1]
              exact hp
            · exact hall x hx1
          · intro hall x hx
            exact hall x (List.mem_cons_of_mem p hx)
        · intro v hv
          obtain ⟨x, hlast, hxv⟩ := ihlast v hv
          refine ⟨x, ?_, hxv⟩
          rcases hcase : o.attempted with _ | ⟨y, l2⟩
          · exact absurd hcase hne
          · rw [List.getLast?_cons_cons]
            rw [hcase] at hlast
            exact hlast
    · rw [pkeyGo_head_some hp]
      refine ⟨rfl, le_refl 1, by simp, rfl, rfl, ?_, ?_, ?_⟩
      · intro x hx
        simp at hx
      · constructor
        · intro hcon
          cases hcon
        · intro hall
          exact absurd hp (by rw [hall p (List.mem_cons_self p rest)]; simp)
      · intro w hw
        refine ⟨p, rfl, ?_⟩
        rw [hp]
        cases hw
        rfl


lemma pkeyCreate_loop {engineRes noCb : Option Nat} {junk : List Nat}
    {id : CacheKey} {pwds : List (List Nat)} {parse : List Nat → Option Nat}
    (h : id.type ≠ KeyTag.engine) :
    pkeyCreate engineRes true parse noCb junk id (some pwds) =
      pkeyGo parse junk pwds.length pwds := by
  unfold pkeyCreate
  rw [if_neg h, if_neg (by simp)]

/-- C7: a PKEY create on a non-ENGINE identity with n >= 1 passphrases
attempts the PEM parser with the passphrases strictly in list order
(`attempted` is a prefix of the list), at most n times, resets the byte
source and clears the accumulated errors exactly once between consecutive
attempts, stops at the first success (every attempt before the last fails,
and on success the last attempted passphrase is the succeeding one), and
fails if and only if every passphrase fails. -/
theorem claim_C7 (parse : List Nat → Option Nat)
    (engineRes noCb : Option Nat) (junk : List Nat) (id : CacheKey)
    (pwds : List (List Nat))
    (hne : id.type ≠ KeyTag.engine) (hpw : pwds ≠ []) :
    (pkeyCreate engineRes true parse noCb junk id (some pwds)).attempted =
      pwds.take
        (pkeyCreate engineRes true parse noCb junk id (some pwds)).attempts ∧
    1 ≤ (pkeyCreate engineRes true parse noCb junk id (some pwds)).attempts ∧
    (pkeyCreate engineRes true parse noCb junk id (some pwds)).attempts ≤
      pwds.length ∧
    (pkeyCreate engineRes true parse noCb junk id (some pwds)).resets =
      (pkeyCreate engineRes true parse noCb junk id (some pwds)).attempts
        - 1 ∧
    (pkeyCreate engineRes true parse noCb junk id (some pwds)).clears =
      (pkeyCreate engineRes true parse noCb junk id (some pwds)).attempts
        - 1 ∧
    (∀ p ∈ (pkeyCreate engineRes true parse noCb junk id
        (some pwds)).attempted.dropLast, parse p = none) ∧
    ((pkeyCreate engineRes true parse noCb junk id (some pwds)).result =
        none ↔ ∀ p ∈ pwds, parse p = none) ∧
    (∀ v, (pkeyCreate engineRes true parse noCb junk id (some pwds)).result =
        some v →
      ∃ p, (pkeyCreate engineRes true parse noCb junk id
          (some pwds)).attempted.getLast? = some p ∧ parse p = some v) := by
  rw [pkeyCreate_loop hne]
  exact pkeyGo_spec parse junk pwds hpw

/-- Parser oracle of the C7 witness: only the passphrase `[2]` decrypts the
key, yielding 42. -/
def c7parse : List Nat → Option Nat :=
  fun p => if p = [2] then some 42 else none

/-- Witness for C7 at passphrase list `[[1], [2]]` ("wrong", "right"): two
attempts, one reset and one error-clear, result 42. -/
theorem claim_C7_witness :
    (pkeyCreate none true c7parse none [] ⟨.data, [9]⟩
        (some [[1], [2]])).attempted =
      [[1], [2]].take
        (pkeyCreate none true c7parse none [] ⟨.data, [9]⟩
          (some [[1], [2]])).attempts ∧
    1 ≤ (pkeyCreate none true c7parse none [] ⟨.data, [9]⟩
        (some [[1], [2]])).attempts ∧
    (pkeyCreate none true c7parse none [] ⟨.data, [9]⟩
        (some [[1], [2]])).attempts ≤ ([[1], [2]] : List (List Nat)).length ∧
    (pkeyCreate none true c7parse none [] ⟨.data, [9]⟩
        (some [[1], [2]])).resets =
      (pkeyCreate none true c7parse none [] ⟨.data, [9]⟩
        (some [[1], [2]])).attempts - 1 ∧
    (pkeyCreate none true c7parse none [] ⟨.data, [9]⟩
        (some [[1], [2]])).clears =
      (pkeyCreate none true c7parse none [] ⟨.data, [9]⟩
        (some [[1], [2]])).attempts - 1 ∧
    (∀ p ∈ (pkeyCreate none true c7parse none [] ⟨.data, [9]⟩
        (some [[1], [2]])).attempted.dropLast, c7parse p = none) ∧
    ((pkeyCreate none true c7parse none [] ⟨.data, [9]⟩
        (some [[1], [2]])).result = none ↔
      ∀ p ∈ ([[1], [2]] : List (List Nat)), c7parse p = none) ∧
    (∀ v, (pkeyCreate none true c7parse none [] ⟨.data, [9]⟩
        (some [[1], [2]])).result = some v →
      ∃ p, (pkeyCreate none true c7parse none [] ⟨.data, [9]⟩
          (some [[1], [2]])).attempted.getLast? = some p ∧
        c7parse p = some v) :=
  claim_C7 c7parse none none [] ⟨.data, [9]⟩ [[1], [2]]
    (by decide) (by decide)

end NgxSslCache

namespace NgxSslCache

lemma expireGo_inv (now inactive : Int) :
    ∀ (fuel n : Nat) (entries : List CacheNode) (current frees : Nat),
      current = entries.length →
      (expireGo now inactive fuel n entries current frees).2.1 =
        (expireGo now inactive fuel n entries current frees).1.length := by
  intro fuel
  induction fuel with
  | zero =>
      intro n entries current frees h
      simp only [expireGo]
      exact h
  | succ f ihf =>
      intro n entries current frees h
      simp only [expireGo]
      split
      · exact h
      · rename_i cn hget
        split
        · exact h
        · have hne : entries ≠ [] := by
            intro hcon
            rw [hcon] at hget
            cases hget
          have hpos : 0 < entries.length := List.length_pos_of_ne_nil hne
          refine ihf (n + 1) entries.dropLast (current - 1) (frees + 1) ?_
          rw [List.length_dropLast]
          omega

lemma connSweep_inv (now : Int) (s1 : CacheState)
    (h : s1.current = s1.entries.length) :
    (connSweep now s1).2.1 = (connSweep now s1).1.length := by
  unfold connSweep
  split
  · simp only [cacheExpire]
    exact expireGo_inv now s1.inactive 3 0 s1.entries s1.current 0 h
  · exact h

lemma connectionFetch_inv (hf : List Nat → Nat) (cp : List Nat)
    (s : CacheState) (c : ConnCall) (h : s.current = s.entries.length) :
    (connectionFetch hf cp s c).cache.current =
      (connectionFetch hf cp s c).cache.entries.length := by
  by_cases hb : pwdBypass c.index c.passwords
  · unfold connectionFetch
    rw [if_pos hb]
    exact h
  · simp only [Bool.not_eq_true] at hb
    rcases cacheLookup_cases s c.now
        ⟨hf (initKey c.index cp c.path).bytes, c.index,
          (initKey c.index cp c.path).bytes⟩ with
      ⟨hlk, hfind⟩ | ⟨cn, hfind, hfresh, hlk⟩ | ⟨cn, hfind, hstale, hlk⟩
    · -- clean miss
      rcases hcr : c.createRes with _ | v
      · simp only [connectionFetch, hb, Bool.false_eq_true, if_false, hlk,
          hcr]
        exact h
      · have hsw := connSweep_inv c.now s h
        simp only [connectionFetch, hb, Bool.false_eq_true, if_false, hlk,
          hcr, List.length_cons]
        omega
    · -- hit
      have herase := eraseP_length_of_find hfind
      by_cases hvalid : c.now - cn.created > s.valid
      · rcases hstat : c.statA with _ | fi
        · rcases hcr : c.createRes with _ | v
          · simp only [connectionFetch, hb, Bool.false_eq_true, if_false,
              hlk, hstat, hcr, if_pos hvalid]
            simp
            omega
          · simp only [connectionFetch, hb, Bool.false_eq_true, if_false,
              hlk, hstat, hcr, if_pos hvalid]
            simp
            omega
        · by_cases hch : (fi.uniq != cn.uniq || fi.mtime != cn.mtime) = true
          · rcases hcr : c.createRes with _ | v
            · simp only [connectionFetch, hb, Bool.false_eq_true, if_false,
                hlk, hstat, hcr, if_pos hvalid, hch, if_true]
              omega
            · simp only [connectionFetch, hb, Bool.false_eq_true, if_false,
                hlk, hstat, hcr, if_pos hvalid, hch, if_true,
                List.length_cons]
              omega
          · simp only [Bool.not_eq_true] at hch
            simp only [connectionFetch, hb, Bool.false_eq_true, if_false,
              hlk, hstat, if_pos hvalid, hch, Bool.false_eq_true, if_false,
              List.length_cons]
            omega
      · simp only [connectionFetch, hb, Bool.false_eq_true, if_false, hlk,
          if_neg hvalid, List.length_cons]
        omega
    · -- stale eviction during lookup, then miss
      have herase := eraseP_length_of_find hfind
      have h1 : ({ s with
          entries := (s.entries.eraseP
            (keyMatch ⟨hf (initKey c.index cp c.path).bytes, c.index,
              (initKey c.index cp c.path).bytes⟩)),
          current := s.current - 1 } : CacheState).current =
          ({ s with
          entries := (s.entries.eraseP
            (keyMatch ⟨hf (initKey c.index cp c.path).bytes, c.index,
              (initKey c.index cp c.path).bytes⟩)),
          current := s.current - 1 } : CacheState).entries.length := by
        show s.current - 1 = (s.entries.eraseP
          (keyMatch ⟨hf (initKey c.index cp c.path).bytes, c.index,
            (initKey c.index cp c.path).bytes⟩)).length
        omega
      rcases hcr : c.createRes with _ | v
      · simp only [connectionFetch, hb, Bool.false_eq_true, if_false, hlk,
          hcr]
        exact h1
      · have hsw := connSweep_inv c.now _ h1
        simp only [connectionFetch, hb, Bool.false_eq_true, if_false, hlk,
          hcr, List.length_cons]
        omega


/-- C1: for every capacity-bounded cache (max > 0) and every sequence of
connection fetches against it from initialization, `cache.current` equals
the number of entries in the index at every return (every prefix of a call
sequence is itself a call sequence, so the equality holds at each
intermediate return as well): the miss path increments `current` exactly
when it inserts, and the lookup-time eviction, the refresh-failure path and
the expiration sweep each decrement it exactly when they delete an
entry. -/
theorem claim_C1 (hf : List Nat → Nat) (cp : List Nat) (max : Nat)
    (valid inactive : Int) (calls : List ConnCall) (hmax : 0 < max) :
    (runConn hf cp (cacheInit max valid inactive) calls).current =
      (runConn hf cp (cacheInit max valid inactive) calls).entries.length := by
  have hgen : ∀ (cs : List ConnCall) (s : CacheState),
      s.current = s.entries.length →
      (runConn hf cp s cs).current = (runConn hf cp s cs).entries.length := by
    intro cs
    induction cs with
    | nil =>
        intro s h
        exact h
    | cons c cs2 ihc =>
        intro s h
        simp only [runConn]
        exact ihc _ (connectionFetch_inv hf cp s c h)
  exact hgen calls (cacheInit max valid inactive) rfl

/-- Call sequence of the C1 witness: three distinct certificate fetches
against a cache with `max = 2` (the third triggers the sweep). -/
def c1calls : List ConnCall :=
  [⟨0, [10], none, 1, none, none, some 100, 0, 0⟩,
   ⟨0, [20], none, 1, none, none, some 200, 0, 0⟩,
   ⟨0, [30], none, 1, none, none, some 300, 0, 0⟩]

/-- Witness for C1 on the concrete three-call sequence. -/
theorem claim_C1_witness :
    0 < 2 ∧
    ((runConn hashMock [] (cacheInit 2 0 3600) c1calls).current =
      (runConn hashMock [] (cacheInit 2 0 3600) c1calls).entries.length) :=
  ⟨by decide, claim_C1 hashMock [] 2 0 3600 c1calls (by decide)⟩

end NgxSslCache

namespace NgxSslCache

/-- C4: when a connection-fetch miss with a successful create finds
`current >= max`, the expiration sweep runs before the insert (final
conjunct: the new cache is the swept list with the new node at its head and
the swept counter plus one); the sweep inspects at most three tail entries
of the recency list, evicts the first unconditionally when the list is
non-empty, evicts each subsequent one only if `now - accessed > inactive`,
and in one sweep evicts at least one and never more than three entries. -/
theorem claim_C4 (now : Int) (s : CacheState) (hne : s.entries ≠ []) :
    (∃ k, 1 ≤ k ∧ k ≤ 3 ∧
      (cacheExpire now s).1 = List.dropLast^[k] s.entries ∧
      (cacheExpire now s).2.1 = s.current - k ∧
      (cacheExpire now s).2.2 = k ∧
      (∀ j, 0 < j → j < k →
        ∃ cn, (List.dropLast^[j] s.entries).getLast? = some cn ∧
          s.inactive < now - cn.accessed)) ∧
    (∀ (hf : List Nat → Nat) (cp : List Nat) (c : ConnCall) (v : Nat),
      pwdBypass c.index c.passwords = false →
      cacheLookup s c.now ⟨hf (initKey c.index cp c.path).bytes, c.index,
        (initKey c.index cp c.path).bytes⟩ = ⟨none, s, 0⟩ →
      c.createRes = some v →
      s.max ≤ s.current →
      ∃ cn, (connectionFetch hf cp s c).cache.entries =
          cn :: (cacheExpire c.now s).1 ∧
        (connectionFetch hf cp s c).cache.current =
          (cacheExpire c.now s).2.1 + 1) := by
  constructor
  · obtain ⟨cn0, hget0⟩ :=
      Option.isSome_iff_exists.mp (List.getLast?_isSome.mpr hne)
    rcases hget1 : s.entries.dropLast.getLast? with _ | cn1
    · refine ⟨1, by omega, by omega, ?_, ?_, ?_, ?_⟩
      · simp [cacheExpire, expireGo, hget0, hget1]
      · simp [cacheExpire, expireGo, hget0, hget1]
      · simp [cacheExpire, expireGo, hget0, hget1]
      · intro j hj1 hj2
        omega
    · by_cases hc1 : now - cn1.accessed ≤ s.inactive
      · refine ⟨1, by omega, by omega, ?_, ?_, ?_, ?_⟩
        · simp [cacheExpire, expireGo, hget0, hget1, hc1]
        · simp [cacheExpire, expireGo, hget0, hget1, hc1]
        · simp [cacheExpire, expireGo, hget0, hget1, hc1]
        · intro j hj1 hj2
          omega
      · rcases hget2 : s.entries.dropLast.dropLast.getLast? with _ | cn2
        · refine ⟨2, by omega, by omega, ?_, ?_, ?_, ?_⟩
          · simp [cacheExpire, expireGo, hget0, hget1, hget2, hc1]
          · simp [cacheExpire, expireGo, hget0, hget1, hget2, hc1]
            omega
          · simp [cacheExpire, expireGo, hget0, hget1, hget2, hc1]
          · intro j hj1 hj2
            have hj : j = 1 := by omega
            subst hj
            exact ⟨cn1, by simpa using hget1, by omega⟩
        · by_cases hc2 : now - cn2.accessed ≤ s.inactive
          · refine ⟨2, by omega, by omega, ?_, ?_, ?_, ?_⟩
            · simp [cacheExpire, expireGo, hget0, hget1, hget2, hc1, hc2]
            · simp [cacheExpire, expireGo, hget0, hget1, hget2, hc1, hc2]
              omega
            · simp [cacheExpire, expireGo, hget0, hget1, hget2, hc1, hc2]
            · intro j hj1 hj2
              have hj : j = 1 := by omega
              subst hj
              exact ⟨cn1, by simpa using hget1, by omega⟩
          · refine ⟨3, by omega, by omega, ?_, ?_, ?_, ?_⟩
            · simp [cacheExpire, expireGo, hget0, hget1, hget2, hc1, hc2]
            · simp [cacheExpire, expireGo, hget0, hget1, hget2, hc1, hc2]
              omega
            · simp [cacheExpire, expireGo, hget0, hget1, hget2, hc1, hc2]
            · intro j hj1 hj2
              rcases (by omega : j = 1 ∨ j = 2) with hj | hj
              · subst hj
                exact ⟨cn1, by simpa using hget1, by omega⟩
              · subst hj
                exact ⟨cn2, by simpa using hget2, by omega⟩
  · intro hf cp c v hb hlk hcr hge
    simp only [connectionFetch, hb, Bool.false_eq_true, if_false, hlk, hcr]
    have hsw : connSweep c.now s = cacheExpire c.now s := by
      unfold connSweep
      rw [if_pos hge]
    rw [hsw]
    exact ⟨_, rfl, rfl⟩


/-- Cache of the C4 witness: three entries, least-recent at the tail, all
beyond the inactivity bound at time 100. -/
def c4cache : CacheState :=
  ⟨[⟨1, ⟨.path, [1]⟩, 0, 5, 0, 50, 0, 0⟩,
    ⟨2, ⟨.path, [2]⟩, 0, 6, 0, 0, 0, 0⟩,
    ⟨3, ⟨.path, [3]⟩, 0, 7, 0, 0, 0, 0⟩], 3, 3, 0, 10, false⟩

/-- Witness for C4 on the concrete full cache at time 100. -/
theorem claim_C4_witness :
    (∃ k, 1 ≤ k ∧ k ≤ 3 ∧
      (cacheExpire 100 c4cache).1 = List.dropLast^[k] c4cache.entries ∧
      (cacheExpire 100 c4cache).2.1 = c4cache.current - k ∧
      (cacheExpire 100 c4cache).2.2 = k ∧
      (∀ j, 0 < j → j < k →
        ∃ cn, (List.dropLast^[j] c4cache.entries).getLast? = some cn ∧
          c4cache.inactive < 100 - cn.accessed)) ∧
    (∀ (hf : List Nat → Nat) (cp : List Nat) (c : ConnCall) (v : Nat),
      pwdBypass c.index c.passwords = false →
      cacheLookup c4cache c.now ⟨hf (initKey c.index cp c.path).bytes,
        c.index, (initKey c.index cp c.path).bytes⟩ = ⟨none, c4cache, 0⟩ →
      c.createRes = some v →
      c4cache.max ≤ c4cache.current →
      ∃ cn, (connectionFetch hf cp c4cache c).cache.entries =
          cn :: (cacheExpire c.now c4cache).1 ∧
        (connectionFetch hf cp c4cache c).cache.current =
          (cacheExpire c.now c4cache).2.1 + 1) :=
  claim_C4 100 c4cache (by decide)

end NgxSslCache

namespace NgxSslCache

lemma memn2cmp_eq_iff : ∀ as bs : List Nat, memn2cmp as bs = .eq ↔ as = bs := by
  intro as
  induction as with
  | nil =>
      intro bs
      cases bs with
      | nil => simp [memn2cmp]
      | cons b bs => simp [memn2cmp]
  | cons a as iha =>
      intro bs
      cases bs with
      | nil => simp [memn2cmp]
      | cons b bs =>
          simp only [memn2cmp, List.cons.injEq]
          rcases lt_trichotomy a b with h | h | h
          · rw [if_pos h]
            constructor
            · intro hcon
              cases hcon
            · rintro ⟨hab, -⟩
              omega
          · subst h
            rw [if_neg (by omega), if_neg (by omega), iha bs]
            simp
          · rw [if_neg (by omega), if_pos h]
            constructor
            · intro hcon
              cases hcon
            · rintro ⟨hab, -⟩
              omega

lemma memn2cmp_gt_iff : ∀ as bs : List Nat,
    memn2cmp as bs = .gt ↔ memn2cmp bs as = .lt := by
  intro as
  induction as with
  | nil =>
      intro bs
      cases bs with
      | nil => simp [memn2cmp]
      | cons b bs => simp [memn2cmp]
  | cons a as iha =>
      intro bs
      cases bs with
      | nil => simp [memn2cmp]
      | cons b bs =>
          simp only [memn2cmp]
          rcases lt_trichotomy a b with h | h | h
          · rw [if_pos h, if_neg (by omega), if_pos h]
            constructor
            · intro hcon
              cases hcon
            · intro hcon
              cases hcon
          · subst h
            rw [if_neg (by omega), if_neg (by omega), if_neg (by omega),
              if_neg (by omega)]
            exact iha bs
          · rw [if_neg (by omega), if_pos h, if_pos h]
            simp
  
lemma memn2cmp_lt_trans : ∀ as bs cs : List Nat,
    memn2cmp as bs = .lt → memn2cmp bs cs = .lt → memn2cmp as cs = .lt := by
  intro as
  induction as with
  | nil =>
      intro bs cs h1 h2
      cases cs with
      | nil =>
          cases bs with
          | nil => cases h1
          | cons b bs => cases h2
      | cons c cs => simp [memn2cmp]
  | cons a as iha =>
      intro bs cs h1 h2
      cases bs with
      | nil => cases h1
      | cons b bs =>
          cases cs with
          | nil => cases h2
          | cons c cs =>
              simp only [memn2cmp] at h1 h2 ⊢
              rcases lt_trichotomy a b with hab | hab | hab
              · rcases lt_trichotomy b c with hbc | hbc | hbc
                · rw [if_pos (by omega : a < c)]
                · subst hbc
                  rw [if_pos hab]
                · rw [if_neg (by omega), if_pos hbc] at h2
                  cases h2
              · subst hab
                rcases lt_trichotomy a c with hac | hac | hac
                · rw [if_pos hac]
                · subst hac
                  rw [if_neg (by omega), if_neg (by omega)] at h1 h2 ⊢
                  exact iha bs cs h1 h2
                · rw [if_neg (by omega), if_pos hac] at h2
                  cases h2
              · rw [if_neg (by omega), if_pos hab] at h1
                cases h1


lemma keyCmp_eq_iff : ∀ a b : NodeKey, keyCmp a b = .eq ↔ a = b := by
  rintro ⟨ha, ka, ba⟩ ⟨hb, kb, bb⟩
  simp only [keyCmp, NodeKey.mk.injEq]
  rcases lt_trichotomy ha hb with h | h | h
  · rw [if_pos h]
    constructor
    · intro hcon
      cases hcon
    · rintro ⟨h1, -, -⟩
      omega
  · subst h
    rw [if_neg (by omega), if_neg (by omega)]
    rcases lt_trichotomy ka kb with h2 | h2 | h2
    · rw [if_pos h2]
      constructor
      · intro hcon
        cases hcon
      · rintro ⟨-, h3, -⟩
        omega
    · subst h2
      rw [if_neg (by omega), if_neg (by omega), memn2cmp_eq_iff]
      simp
    · rw [if_neg (by omega), if_pos h2]
      constructor
      · intro hcon
        cases hcon
      · rintro ⟨-, h3, -⟩
        omega
  · rw [if_neg (by omega), if_pos h]
    constructor
    · intro hcon
      cases hcon
    · rintro ⟨h1, -, -⟩
      omega

lemma keyCmp_gt_iff : ∀ a b : NodeKey, keyCmp a b = .gt ↔ keyCmp b a = .lt := by
  rintro ⟨ha, ka, ba⟩ ⟨hb, kb, bb⟩
  simp only [keyCmp]
  split_ifs <;>
    first
      | exact memn2cmp_gt_iff ba bb
      | omega
      | simp_all
      | (constructor <;> (intro hcon; cases hcon))

lemma keyCmp_lt_trans : ∀ a b c : NodeKey,
    keyCmp a b = .lt → keyCmp b c = .lt → keyCmp a c = .lt := by
  rintro ⟨ha, ka, ba⟩ ⟨hb, kb, bb⟩ ⟨hc, kc, bc⟩ h1 h2
  simp only [keyCmp] at h1 h2 ⊢
  split_ifs at h1 h2 ⊢ <;>
    first
      | rfl
      | omega
      | exact memn2cmp_lt_trans ba bb bc h1 h2
      | cases h1
      | cases h2
      | (exfalso
         rw [memn2cmp_eq_iff] at h1
         omega)
      | (exfalso
         rw [memn2cmp_eq_iff] at h2
         omega)

lemma nodeInsertLeft_iff : ∀ n t : NodeKey,
    nodeInsertLeft n t = true ↔ keyCmp n t = .lt := by
  rintro ⟨hn, kn, bn⟩ ⟨ht, kt, bt⟩
  simp only [nodeInsertLeft, keyCmp]
  split_ifs <;>
    first
      | omega
      | (cases memn2cmp bn bt <;> decide)
      | simp_all
      | (constructor <;> (intro hcon; cases hcon))


lemma keyCmp_lt_cases {a b : NodeKey} (h : keyCmp a b = .lt) :
    a.hash < b.hash ∨
    (a.hash = b.hash ∧ a.kind < b.kind) ∨
    (a.hash = b.hash ∧ a.kind = b.kind ∧ memn2cmp a.bytes b.bytes = .lt) := by
  unfold keyCmp at h
  split_ifs at h <;>
    first
      | omega
      | cases h
      | (left
         omega)
      | (right
         left
         omega)
      | (right
         right
         exact ⟨by omega, by omega, h⟩)

lemma bstSearch_insert : ∀ (t : Tree) (k : NodeKey),
    bstSearch (bstInsert t k) k = some k := by
  intro t
  induction t with
  | nil =>
      intro k
      unfold bstInsert bstSearch
      rw [if_neg (lt_irrefl k.hash), if_neg (lt_irrefl k.hash),
        if_neg (lt_irrefl k.kind), if_neg (lt_irrefl k.kind), memn2cmp_self]
  | node l k' r ihl ihr =>
      intro k
      by_cases hik : nodeInsertLeft k k' = true
      · have hlt := (nodeInsertLeft_iff k k').mp hik
        unfold bstInsert
        rw [if_pos hik]
        unfold bstSearch
        rcases keyCmp_lt_cases hlt with h1 | ⟨h1, h2⟩ | ⟨h1, h2, h3⟩
        · rw [if_pos h1]
          exact ihl k
        · rw [if_neg (by omega), if_neg (by omega), if_pos h2]
          exact ihl k
        · rw [if_neg (by omega), if_neg (by omega), if_neg (by omega),
            if_neg (by omega), h3]
          exact ihl k
      · have hnl : ¬ keyCmp k k' = .lt :=
          fun hc => hik ((nodeInsertLeft_iff k k').mpr hc)
        unfold bstInsert
        rw [if_neg hik]
        rcases hcmp : keyCmp k k' with _ | _ | _
        · exact absurd hcmp hnl
        · have hk : k = k' := (keyCmp_eq_iff k k').mp hcmp
          subst hk
          unfold bstSearch
          rw [if_neg (lt_irrefl k.hash), if_neg (lt_irrefl k.hash),
            if_neg (lt_irrefl k.kind), if_neg (lt_irrefl k.kind),
            memn2cmp_self]
        · have hgt := (keyCmp_gt_iff k k').mp hcmp
          unfold bstSearch
          rcases keyCmp_lt_cases hgt with h1 | ⟨h1, h2⟩ | ⟨h1, h2, h3⟩
          · rw [if_neg (by omega), if_pos h1]
            exact ihr k
          · rw [if_neg (by omega), if_neg (by omega), if_neg (by omega),
              if_pos h2]
            exact ihr k
          · have h4 : memn2cmp k.bytes k'.bytes = .gt := by
              rw [memn2cmp_gt_iff]
              exact h3
            rw [if_neg (by omega), if_neg (by omega), if_neg (by omega),
              if_neg (by omega), h4]
            exact ihr k

/-- C9: the ternary index comparator — 32-bit hash first, then kind-table
position, then length-aware lexicographic comparison of the identity
bytes — is a strict total order on keys (reflexively `eq`, `eq` exactly on
equal keys, `gt` exactly when the swapped comparison is `lt`, transitive,
and total), the insert path of `ngx_ssl_cache_node_insert` descends left
exactly when the comparator says `lt` (so insert and lookup order keys
identically), and every inserted key is found by a subsequent search with
the same key. -/
theorem claim_C9 :
    (∀ a : NodeKey, keyCmp a a = .eq) ∧
    (∀ a b : NodeKey, keyCmp a b = .eq ↔ a = b) ∧
    (∀ a b : NodeKey, keyCmp a b = .gt ↔ keyCmp b a = .lt) ∧
    (∀ a b c : NodeKey,
      keyCmp a b = .lt → keyCmp b c = .lt → keyCmp a c = .lt) ∧
    (∀ a b : NodeKey, a ≠ b → keyCmp a b = .lt ∨ keyCmp b a = .lt) ∧
    (∀ n t : NodeKey, nodeInsertLeft n t = true ↔ keyCmp n t = .lt) ∧
    (∀ (t : Tree) (k : NodeKey), bstSearch (bstInsert t k) k = some k) := by
  refine ⟨keyCmp_self, keyCmp_eq_iff, keyCmp_gt_iff, keyCmp_lt_trans, ?_,
    nodeInsertLeft_iff, bstSearch_insert⟩
  intro a b hne
  rcases hcmp : keyCmp a b with _ | _ | _
  · exact Or.inl rfl
  · exact absurd ((keyCmp_eq_iff a b).mp hcmp) hne
  · exact Or.inr ((keyCmp_gt_iff a b).mp hcmp)

/-- Witness for C9, applying each component at concrete keys (two keys with
equal hash and kind whose byte strings are a prefix pair, exercising the
length-aware tie-break, plus a three-key transitivity chain and a concrete
insert-then-search). -/
theorem claim_C9_witness :
    keyCmp ⟨5, 1, [7, 8]⟩ ⟨5, 1, [7, 8]⟩ = .eq ∧
    (keyCmp ⟨5, 1, [7, 8]⟩ ⟨5, 1, [7, 8, 9]⟩ = .eq ↔
      (⟨5, 1, [7, 8]⟩ : NodeKey) = ⟨5, 1, [7, 8, 9]⟩) ∧
    (keyCmp ⟨5, 1, [7, 8, 9]⟩ ⟨5, 1, [7, 8]⟩ = .gt ↔
      keyCmp ⟨5, 1, [7, 8]⟩ ⟨5, 1, [7, 8, 9]⟩ = .lt) ∧
    keyCmp ⟨5, 1, [7, 8]⟩ ⟨5, 1, [7, 8, 9]⟩ = .lt ∧
    keyCmp ⟨5, 1, [7, 8, 9]⟩ ⟨5, 2, []⟩ = .lt ∧
    keyCmp ⟨5, 1, [7, 8]⟩ ⟨5, 2, []⟩ = .lt ∧
    (nodeInsertLeft ⟨5, 1, [7, 8]⟩ ⟨5, 1, [7, 8, 9]⟩ = true ↔
      keyCmp ⟨5, 1, [7, 8]⟩ ⟨5, 1, [7, 8, 9]⟩ = .lt) ∧
    bstSearch (bstInsert (bstInsert .nil ⟨5, 1, [7, 8, 9]⟩) ⟨5, 1, [7, 8]⟩)
      ⟨5, 1, [7, 8]⟩ = some ⟨5, 1, [7, 8]⟩ :=
  ⟨claim_C9.1 ⟨5, 1, [7, 8]⟩,
   claim_C9.2.1 ⟨5, 1, [7, 8]⟩ ⟨5, 1, [7, 8, 9]⟩,
   claim_C9.2.2.1 ⟨5, 1, [7, 8, 9]⟩ ⟨5, 1, [7, 8]⟩,
   by decide,
   by decide,
   claim_C9.2.2.2.1 ⟨5, 1, [7, 8]⟩ ⟨5, 1, [7, 8, 9]⟩ ⟨5, 2, []⟩ (by decide)
     (by decide),
   claim_C9.2.2.2.2.2.1 ⟨5, 1, [7, 8]⟩ ⟨5, 1, [7, 8, 9]⟩,
   claim_C9.2.2.2.2.2.2 (bstInsert .nil ⟨5, 1, [7, 8, 9]⟩) ⟨5, 1, [7, 8]⟩⟩

end NgxSslCache
